import Mathlib

/-!
Verification of the score aggregation and ranking engine of the hackathon
judge application (`src/app.py`).

The embedding below mirrors the Python source:
* configuration (`config.yaml` shape): teams, judges, categories with criteria;
* the score store `scores.json`: a dict keyed by `"{judge}_{team}"`, modelled
  as an association list with Python-dict semantics (insertion order kept,
  assignment replaces in place);
* `calculate_all_team_scores` (app.py lines 145-201);
* `get_category_winners` (app.py lines 205-225);
* the overall-standings computation of `view_leaderboard` (app.py lines 684-702);
* the save-scores action of `judge_teams` (app.py lines 399-412).

Python floats are modelled exactly by `ℚ` (the spec treats floating-point
rounding as noise, not semantics); criterion scores are integers.
-/

namespace JudgeApp

/-- A judging criterion: `{name, description, max_score}` in `config.yaml`. -/
structure Criterion where
  name : String
  description : String
  max_score : Nat
deriving DecidableEq, Repr

/-- A judging category: `{name, criteria}` in `config.yaml`. -/
structure Category where
  name : String
  criteria : List Criterion
deriving DecidableEq, Repr

/-- The configuration: `config["teams"]`, `config["judges"]`, `config["categories"]`. -/
structure Config where
  teams : List String
  judges : List String
  categories : List Category
deriving DecidableEq, Repr

/-- One score submission as stored under a key of `scores.json`:
`{"judge", "team", "scores", "notes", "timestamp"}` where `scores` maps a
category name to a map from criterion name to the integer slider value
(app.py lines 404-410).  Inner dicts are association lists in order. -/
structure Submission where
  judge : String
  team : String
  scores : List (String × List (String × Int))
  notes : String
  timestamp : String
deriving DecidableEq, Repr

/-- The whole score store: the `{"scores": {...}}` object of `scores.json`. -/
structure ScoresData where
  scores : List (String × Submission)
deriving DecidableEq, Repr

/-- The per-team/per-category statistics record built by
`calculate_all_team_scores` (app.py lines 154-159). -/
structure Stat where
  avg_score : ℚ
  total_possible : ℚ
  percentage : ℚ
  judges_count : Nat
deriving DecidableEq, Repr

/-- The all-zero initial statistics record (app.py lines 154-159). -/
def zeroStat : Stat := ⟨0, 0, 0, 0⟩

/-- `team_category_scores`: a Python dict of dicts, modelled as a two-level
association list (insertion order significant, keys unique in practice). -/
abbrev TeamStats := List (String × List (String × Stat))

/-- First-match lookup in an association list: Python `d[k]` together with
`k in d` (a Python dict holds each key once; on lists with duplicate keys
this takes the first, which is also what `updateA` touches). -/
def lookupA {β : Type} (k : String) : List (String × β) → Option β
  | [] => none
  | p :: rest => if p.1 = k then some p.2 else lookupA k rest

/-- Python `k in d`. -/
def hasKey {β : Type} (k : String) (l : List (String × β)) : Bool :=
  (lookupA k l).isSome

/-- Apply `f` to the value stored at `k` (first match), leaving everything
else in place: Python's in-place mutation `d[k] = f(d[k])`. -/
def updateA {β : Type} (k : String) (f : β → β) : List (String × β) → List (String × β)
  | [] => []
  | p :: rest => if p.1 = k then (p.1, f p.2) :: rest else p :: updateA k f rest

/-- Python dict assignment `d[k] = v`: replace in place if the key exists,
otherwise append at the end (dicts preserve insertion order). -/
def dictInsert {β : Type} (k : String) (v : β) (l : List (String × β)) :
    List (String × β) :=
  if hasKey k l then updateA k (fun _ => v) l else l ++ [(k, v)]

/-- `all_categories = [cat["name"] for cat in config["categories"]]`
(app.py line 147). -/
def catNames (cfg : Config) : List String :=
  cfg.categories.map (fun cat => cat.name)

/-- `category_max`: sum of `max_score` over the criteria of every configured
category whose name matches (app.py lines 176-181). -/
def catMax (cfg : Config) (category : String) : Nat :=
  ((cfg.categories.filter (fun cat => cat.name == category)).map
    (fun cat => (cat.criteria.map (fun criterion => criterion.max_score)).sum)).sum

/-- `category_score = sum(criteria_scores.values())` (app.py line 184),
as a rational. -/
def catScoreSum (criteria_scores : List (String × Int)) : ℚ :=
  (((criteria_scores.map (fun p => p.2)).sum : ℤ) : ℚ)

/-- The body of the per-category update (app.py lines 186-199): increment
`judges_count`, fold the category score into the running average with
`new_avg = (old_avg * (n - 1) + category_score) / n`, record the configured
category maximum and the percentage (0 when the maximum is 0). -/
def applyCat (cfg : Config) (category : String)
    (criteria_scores : List (String × Int)) (current : Stat) : Stat :=
  let category_max : ℕ := catMax cfg category
  let category_score : ℚ := catScoreSum criteria_scores
  let judges_count : ℕ := current.judges_count + 1
  let new_avg : ℚ :=
    (current.avg_score * ((judges_count - 1 : ℕ) : ℚ) + category_score) /
      (judges_count : ℚ)
  { avg_score := new_avg
    total_possible := (category_max : ℚ)
    percentage := if category_max > 0 then new_avg / (category_max : ℚ) * 100 else 0
    judges_count := judges_count }

/-- One iteration of the inner loop of `calculate_all_team_scores`
(app.py lines 171-199): skip the category unless it is a key of the team's
dict, otherwise update that entry in place. -/
def processCat (cfg : Config) (team : String) (st : TeamStats)
    (entry : String × List (String × Int)) : TeamStats :=
  match lookupA team st with
  | none => st
  | some row =>
    if hasKey entry.1 row then
      updateA team (updateA entry.1 (applyCat cfg entry.1 entry.2)) st
    else st

/-- One iteration of the outer loop of `calculate_all_team_scores`
(app.py lines 165-199): skip the submission when its team is not a key of
`team_category_scores`, otherwise process each category of its scores. -/
def processSubmission (cfg : Config) (st : TeamStats) (data : Submission) :
    TeamStats :=
  if hasKey data.team st then data.scores.foldl (processCat cfg data.team) st
  else st

/-- The zero-initialised structure of app.py lines 150-159: one entry per
configured team, one inner entry per configured category. -/
def initStats (cfg : Config) : TeamStats :=
  cfg.teams.map (fun team =>
    (team, (catNames cfg).map (fun category => (category, zeroStat))))

/-- `calculate_all_team_scores` on the list of submissions (dict values in
insertion order). -/
def calcFromSubs (cfg : Config) (subs : List Submission) : TeamStats :=
  subs.foldl (processSubmission cfg) (initStats cfg)

/-- `calculate_all_team_scores` (app.py lines 145-201).  The early return on
an empty store equals folding over no submissions. -/
def calculate_all_team_scores (cfg : Config) (scores_data : ScoresData) :
    TeamStats :=
  calcFromSubs cfg (scores_data.scores.map (fun p => p.2))

/-- Two-level lookup `team_category_scores[team][category]`. -/
def lookupStat (st : TeamStats) (team category : String) : Option Stat :=
  (lookupA team st).bind (lookupA category)

/-- Insert `x` into a list sorted descending on `key`, after every element
whose key is strictly greater and before the first whose key is not:
the stable position Python's stable sort gives it. -/
def insertDescBy {α : Type} (key : α → ℚ) (x : α) : List α → List α
  | [] => [x]
  | y :: ys => if key y > key x then y :: insertDescBy key x ys else x :: y :: ys

/-- Stable descending sort by `key`: the model of Python
`list.sort(key=..., reverse=True)` (Timsort is stable; `reverse=True` sorts
descending without disturbing ties). -/
def sortDescBy {α : Type} (key : α → ℚ) (l : List α) : List α :=
  l.foldr (insertDescBy key) []

/-- The `category_results` list of `get_category_winners` (app.py lines
213-217): iterate `team_scores.items()` in order, keep `(team, percentage)`
when the category is present with `judges_count > 0`. -/
def categoryResults (category : String) (team_scores : TeamStats) :
    List (String × ℚ) :=
  team_scores.filterMap (fun entry =>
    match lookupA category entry.2 with
    | some stat =>
      if stat.judges_count > 0 then some (entry.1, stat.percentage) else none
    | none => none)

/-- `get_category_winners` (app.py lines 205-225): per configured category,
the qualifying teams sorted descending by percentage (stable). -/
def get_category_winners (cfg : Config) (team_scores : TeamStats) :
    List (String × List (String × ℚ)) :=
  (catNames cfg).map (fun category =>
    (category, sortDescBy (fun x => x.2) (categoryResults category team_scores)))

/-- The overall-standings computation of `view_leaderboard` (app.py lines
684-702): per team, sum the percentages of the categories with
`judges_count > 0`; keep the team only when that count is positive, with the
mean and the count; sort descending by the mean (stable). -/
def overall_scores (team_scores : TeamStats) : List (String × ℚ × ℕ) :=
  sortDescBy (fun x => x.2.1)
    (team_scores.filterMap (fun entry =>
      let judged := entry.2.filter (fun p => p.2.judges_count > 0)
      if judged.length > 0 then
        some (entry.1,
          ((judged.map (fun p => p.2.percentage)).sum) / (judged.length : ℚ),
          judged.length)
      else none))

/-- `judge_key = f"{judge}_{team}"` (app.py line 401). -/
def judge_key (judge team : String) : String := judge ++ "_" ++ team

/-- The save action of `judge_teams` (app.py lines 399-412):
`scores_data["scores"][judge_key] = {...}`. -/
def save_submission (scores_data : ScoresData) (judge team : String)
    (team_scores : List (String × List (String × Int)))
    (notes timestamp : String) : ScoresData :=
  ⟨dictInsert (judge_key judge team)
    ⟨judge, team, team_scores, notes, timestamp⟩ scores_data.scores⟩

/-- The category scores a list of submissions contributes to a fixed
team/category pair, in processing order: for each submission for that team,
the value dict of each of its score entries under that category name. -/
def contribs (team category : String) : List Submission → List (List (String × Int))
  | [] => []
  | s :: rest =>
    (if s.team = team then
      (s.scores.filter (fun e => e.1 == category)).map (fun e => e.2)
    else []) ++ contribs team category rest

/-! ### Association-list lemmas -/

theorem lookupA_updateA_self {β : Type} (k : String) (f : β → β)
    (l : List (String × β)) :
    lookupA k (updateA k f l) = (lookupA k l).map f := by
  induction l with
  | nil => rfl
  | cons p rest ih =>
    by_cases h : p.1 = k
    · simp [updateA, lookupA, h]
    · simp [updateA, lookupA, h, ih]

theorem lookupA_updateA_ne {β : Type} {k k' : String} (hne : k ≠ k') (f : β → β)
    (l : List (String × β)) :
    lookupA k (updateA k' f l) = lookupA k l := by
  induction l with
  | nil => rfl
  | cons p rest ih =>
    by_cases h : p.1 = k'
    · have : ¬ p.1 = k := by rw [h]; exact fun hk => hne hk.symm
      simp [updateA, lookupA, h, this, Ne.symm hne]
    · by_cases h2 : p.1 = k
      · simp [updateA, lookupA, h, h2, hne]
      · simp [updateA, lookupA, h, h2, ih]

theorem hasKey_updateA {β : Type} (k k' : String) (f : β → β)
    (l : List (String × β)) :
    hasKey k (updateA k' f l) = hasKey k l := by
  by_cases h : k = k'
  · subst h; simp [hasKey, lookupA_updateA_self]
  · simp [hasKey, lookupA_updateA_ne h]

theorem keys_updateA {β : Type} (k : String) (f : β → β)
    (l : List (String × β)) :
    (updateA k f l).map Prod.fst = l.map Prod.fst := by
  induction l with
  | nil => rfl
  | cons p rest ih =>
    by_cases h : p.1 = k
    · simp [updateA, h]
    · simp [updateA, h, ih]

theorem lookupA_isSome_iff_mem_keys {β : Type} (k : String)
    (l : List (String × β)) :
    (lookupA k l).isSome = true ↔ k ∈ l.map Prod.fst := by
  induction l with
  | nil => simp [lookupA]
  | cons p rest ih =>
    by_cases h : p.1 = k
    · simp [lookupA, h]
    · have hk : ¬ k = p.1 := fun hkk => h hkk.symm
      simp only [lookupA, if_neg h, List.map_cons, List.mem_cons]
      rw [ih]
      simp [hk]

theorem hasKey_iff_mem_keys {β : Type} (k : String) (l : List (String × β)) :
    hasKey k l = true ↔ k ∈ l.map Prod.fst :=
  lookupA_isSome_iff_mem_keys k l

theorem mem_of_lookupA_eq_some {β : Type} {k : String} {v : β}
    {l : List (String × β)} (h : lookupA k l = some v) : (k, v) ∈ l := by
  induction l with
  | nil => simp [lookupA] at h
  | cons p rest ih =>
    by_cases hp : p.1 = k
    · simp [lookupA, hp] at h
      subst h
      simp [← hp]
    · simp [lookupA, hp] at h
      exact List.mem_cons_of_mem _ (ih h)

theorem lookupA_eq_some_of_mem {β : Type} {k : String} {v : β}
    {l : List (String × β)} (hnd : (l.map Prod.fst).Nodup)
    (hmem : (k, v) ∈ l) : lookupA k l = some v := by
  induction l with
  | nil => simp at hmem
  | cons p rest ih =>
    simp only [List.map_cons, List.nodup_cons] at hnd
    rcases List.mem_cons.mp hmem with h | h
    · subst h; simp [lookupA]
    · have hk : p.1 ≠ k := by
        intro he
        exact hnd.1 (he ▸ (List.mem_map.mpr ⟨(k, v), h, rfl⟩))
      simp [lookupA, hk]
      exact ih hnd.2 h

theorem lookupA_map_const {β : Type} (k : String) (names : List String) (v : β) :
    lookupA k (names.map (fun n => (n, v))) = if k ∈ names then some v else none := by
  induction names with
  | nil => rfl
  | cons n rest ih =>
    by_cases h : n = k
    · simp [lookupA, h]
    · have hk : ¬ k = n := fun hkk => h hkk.symm
      simp [lookupA, h, ih, hk]

/-! ### Shape of the statistics structure -/

/-- The inner dict every team starts with. -/
def initRow (cfg : Config) : List (String × Stat) :=
  (catNames cfg).map (fun category => (category, zeroStat))

theorem initStats_eq (cfg : Config) :
    initStats cfg = cfg.teams.map (fun team => (team, initRow cfg)) := rfl

/-- The structure built by `calculate_all_team_scores` always has the
configured teams as outer keys, and the configured category names as the
keys of every row. -/
def stShape (cfg : Config) (st : TeamStats) : Prop :=
  st.map Prod.fst = cfg.teams ∧ ∀ e ∈ st, e.2.map Prod.fst = catNames cfg

theorem forall_mem_updateA {β : Type} (P : β → Prop) (k : String) (f : β → β)
    (hf : ∀ v, P v → P (f v)) {l : List (String × β)}
    (h : ∀ e ∈ l, P e.2) : ∀ e ∈ updateA k f l, P e.2 := by
  induction l with
  | nil => intro e he; simp [updateA] at he
  | cons p rest ih =>
    intro e he
    by_cases hp : p.1 = k
    · simp only [updateA, if_pos hp] at he
      rcases List.mem_cons.mp he with h1 | h1
      · subst h1; exact hf _ (h p (List.mem_cons_self _ _))
      · exact h e (List.mem_cons_of_mem _ h1)
    · simp only [updateA, if_neg hp] at he
      rcases List.mem_cons.mp he with h1 | h1
      · subst h1; exact h e (List.mem_cons_self _ _)
      · exact ih (fun e' he' => h e' (List.mem_cons_of_mem _ he')) e h1

theorem stShape_initStats (cfg : Config) : stShape cfg (initStats cfg) := by
  constructor
  · rw [initStats_eq, List.map_map]
    exact List.map_id cfg.teams
  · intro e he
    rw [initStats_eq] at he
    obtain ⟨t, _, rfl⟩ := List.mem_map.mp he
    show List.map Prod.fst
      ((catNames cfg).map (fun category => (category, zeroStat))) = catNames cfg
    rw [List.map_map]
    exact List.map_id (catNames cfg)

theorem stShape_processCat (cfg : Config) (tm : String) (st : TeamStats)
    (e : String × List (String × Int)) (h : stShape cfg st) :
    stShape cfg (processCat cfg tm st e) := by
  unfold processCat
  cases lookupA tm st with
  | none => exact h
  | some row =>
    by_cases hk : hasKey e.1 row = true
    · simp only [hk, if_true]
      refine ⟨?_, ?_⟩
      · rw [keys_updateA]; exact h.1
      · exact forall_mem_updateA (fun v => List.map Prod.fst v = catNames cfg)
          tm (updateA e.1 (applyCat cfg e.1 e.2))
          (fun v hv => by
            show List.map Prod.fst (updateA e.1 (applyCat cfg e.1 e.2) v) =
              catNames cfg
            rw [keys_updateA]
            exact hv)
          h.2
    · simp only [hk, if_false]
      exact h

theorem stShape_processSubmission (cfg : Config) (st : TeamStats)
    (s : Submission) (h : stShape cfg st) :
    stShape cfg (processSubmission cfg st s) := by
  unfold processSubmission
  by_cases hk : hasKey s.team st = true
  · simp only [hk, if_true]
    clear hk
    induction s.scores generalizing st with
    | nil => exact h
    | cons e rest ih => exact ih _ (stShape_processCat cfg s.team st e h)
  · simp only [hk, if_false]
    exact h

theorem stShape_calcFromSubs (cfg : Config) (subs : List Submission) :
    stShape cfg (calcFromSubs cfg subs) := by
  unfold calcFromSubs
  have : ∀ st, stShape cfg st →
      stShape cfg (subs.foldl (processSubmission cfg) st) := by
    induction subs with
    | nil => intro st h; exact h
    | cons s rest ih =>
      intro st h
      exact ih _ (stShape_processSubmission cfg st s h)
  exact this _ (stShape_initStats cfg)

/-! ### Evolution of a single team/category entry -/

theorem lookupStat_processCat (cfg : Config) (tm : String) (st : TeamStats)
    (e : String × List (String × Int)) {team cat : String} {c : Stat}
    (h : lookupStat st team cat = some c) :
    lookupStat (processCat cfg tm st e) team cat =
      some (if tm = team ∧ e.1 = cat then applyCat cfg e.1 e.2 c else c) := by
  obtain ⟨row, hrow, hc⟩ :
      ∃ row, lookupA team st = some row ∧ lookupA cat row = some c := by
    unfold lookupStat at h
    cases hr : lookupA team st with
    | none => rw [hr] at h; simp at h
    | some row => rw [hr] at h; exact ⟨row, rfl, h⟩
  unfold processCat
  cases htm : lookupA tm st with
  | none =>
    have hne : ¬ (tm = team) := by
      intro hEq; rw [hEq, hrow] at htm; exact Option.noConfusion htm
    simp only [hne, false_and, if_false]
    exact h
  | some row2 =>
    by_cases hk : hasKey e.1 row2 = true
    · simp only [hk, if_true]
      by_cases h1 : tm = team
      · subst h1
        have hr2 : row2 = row := by
          rw [hrow] at htm; exact (Option.some.injEq _ _).mp htm.symm
        subst hr2
        unfold lookupStat
        rw [lookupA_updateA_self, hrow]
        by_cases h2 : e.1 = cat
        · subst h2
          simp [lookupA_updateA_self, hc]
        · simp [lookupA_updateA_ne (fun hEq => h2 hEq.symm), hc, h2]
      · unfold lookupStat
        rw [lookupA_updateA_ne (fun hEq => h1 hEq.symm), hrow]
        simp [hc, h1]
    · simp only [hk, if_false]
      have hcond : ¬ (tm = team ∧ e.1 = cat) := by
        rintro ⟨h1, h2⟩
        rw [h1, hrow] at htm
        have hr2 : row2 = row := (Option.some.injEq _ _).mp htm.symm
        rw [hr2, h2] at hk
        exact hk (by unfold hasKey; rw [hc]; rfl)
      simp only [hcond, if_false]
      exact h

theorem lookupStat_foldl_processCat (cfg : Config) (tm : String)
    (l : List (String × List (String × Int))) (st : TeamStats)
    {team cat : String} {c : Stat} (h : lookupStat st team cat = some c) :
    lookupStat (l.foldl (processCat cfg tm) st) team cat =
      some (if tm = team then
        ((l.filter (fun e => e.1 == cat)).map (fun e => e.2)).foldl
          (fun cur cs => applyCat cfg cat cs cur) c
      else c) := by
  induction l generalizing st c with
  | nil =>
    simp only [List.foldl_nil, List.filter_nil, List.map_nil, ite_self]
    exact h
  | cons e rest ih =>
    have hstep := lookupStat_processCat cfg tm st e h
    rw [List.foldl_cons, ih _ hstep]
    by_cases h1 : tm = team
    · by_cases h2 : e.1 = cat
      · simp [h1, h2]
      · simp [h1, h2]
    · simp [h1]

theorem lookupStat_processSubmission (cfg : Config) (st : TeamStats)
    (s : Submission) {team cat : String} {c : Stat}
    (h : lookupStat st team cat = some c) :
    lookupStat (processSubmission cfg st s) team cat =
      some (if s.team = team then
        ((s.scores.filter (fun e => e.1 == cat)).map (fun e => e.2)).foldl
          (fun cur cs => applyCat cfg cat cs cur) c
      else c) := by
  unfold processSubmission
  by_cases hk : hasKey s.team st = true
  · rw [if_pos hk]
    exact lookupStat_foldl_processCat cfg s.team s.scores st h
  · rw [if_neg hk]
    have hsome : (lookupA team st).isSome = true := by
      unfold lookupStat at h
      cases hr : lookupA team st with
      | none => rw [hr] at h; simp at h
      | some row => rfl
    have hne : ¬ s.team = team := by
      intro hEq
      apply hk
      rw [hEq]
      exact hsome
    rw [if_neg hne]
    exact h

theorem lookupStat_foldl_subs (cfg : Config) (subs : List Submission)
    (st : TeamStats) {team cat : String} {c : Stat}
    (h : lookupStat st team cat = some c) :
    lookupStat (subs.foldl (processSubmission cfg) st) team cat =
      some ((contribs team cat subs).foldl
        (fun cur cs => applyCat cfg cat cs cur) c) := by
  induction subs generalizing st c with
  | nil =>
    simp only [List.foldl_nil, contribs]
    exact h
  | cons s rest ih =>
    have hstep := lookupStat_processSubmission cfg st s h
    rw [List.foldl_cons, ih _ hstep]
    by_cases h1 : s.team = team
    · simp [contribs, h1, List.foldl_append]
    · simp [contribs, h1]

theorem lookupStat_initStats (cfg : Config) {team cat : String}
    (ht : team ∈ cfg.teams) (hc : cat ∈ catNames cfg) :
    lookupStat (initStats cfg) team cat = some zeroStat := by
  unfold lookupStat
  rw [initStats_eq]
  have h1 : lookupA team (cfg.teams.map (fun t => (t, initRow cfg))) =
      some (initRow cfg) := by
    rw [lookupA_map_const, if_pos ht]
  rw [h1]
  show lookupA cat (initRow cfg) = some zeroStat
  unfold initRow
  rw [lookupA_map_const, if_pos hc]

/-- The central characterisation: the statistics entry of any configured
team/category pair after `calculate_all_team_scores` is the fold of the
incremental update over exactly the category-score contributions of the
store's submissions, in iteration order, starting from the zero record. -/
theorem lookupStat_calcFromSubs (cfg : Config) (subs : List Submission)
    {team cat : String} (ht : team ∈ cfg.teams) (hc : cat ∈ catNames cfg) :
    lookupStat (calcFromSubs cfg subs) team cat =
      some ((contribs team cat subs).foldl
        (fun cur cs => applyCat cfg cat cs cur) zeroStat) :=
  lookupStat_foldl_subs cfg subs _ (lookupStat_initStats cfg ht hc)

/-! ### Arithmetic of the incremental mean -/

theorem applyCat_judges_count (cfg : Config) (cat : String)
    (cs : List (String × Int)) (c : Stat) :
    (applyCat cfg cat cs c).judges_count = c.judges_count + 1 := rfl

theorem applyCat_avg (cfg : Config) (cat : String)
    (cs : List (String × Int)) (c : Stat) :
    (applyCat cfg cat cs c).avg_score =
      (c.avg_score * (c.judges_count : ℚ) + catScoreSum cs) /
        ((c.judges_count : ℚ) + 1) := by
  unfold applyCat
  simp [Nat.add_sub_cancel]

theorem foldl_applyCat_judges_count (cfg : Config) (cat : String)
    (L : List (List (String × Int))) (c : Stat) :
    (L.foldl (fun cur cs => applyCat cfg cat cs cur) c).judges_count =
      c.judges_count + L.length := by
  induction L generalizing c with
  | nil => simp
  | cons cs L ih =>
    rw [List.foldl_cons, ih, applyCat_judges_count, List.length_cons]
    omega

theorem foldl_applyCat_avg_mul (cfg : Config) (cat : String)
    (L : List (List (String × Int))) (c : Stat) :
    (L.foldl (fun cur cs => applyCat cfg cat cs cur) c).avg_score *
        ((c.judges_count + L.length : ℕ) : ℚ) =
      c.avg_score * (c.judges_count : ℚ) + (L.map catScoreSum).sum := by
  induction L generalizing c with
  | nil => simp
  | cons cs L ih =>
    rw [List.foldl_cons]
    have key : (applyCat cfg cat cs c).avg_score *
        ((c.judges_count + 1 : ℕ) : ℚ) =
        c.avg_score * (c.judges_count : ℚ) + catScoreSum cs := by
      rw [applyCat_avg]
      have hne : ((c.judges_count : ℚ) + 1) ≠ 0 := by positivity
      push_cast
      rw [div_mul_cancel₀ _ hne]
    have := ih (applyCat cfg cat cs c)
    rw [applyCat_judges_count] at this
    have harr : c.judges_count + 1 + L.length = c.judges_count + (cs :: L).length := by
      simp; omega
    rw [harr] at this
    rw [this, key, List.map_cons, List.sum_cons]
    ring

theorem foldl_applyCat_avg (cfg : Config) (cat : String)
    (L : List (List (String × Int))) (hL : L ≠ []) :
    (L.foldl (fun cur cs => applyCat cfg cat cs cur) zeroStat).avg_score =
      (L.map catScoreSum).sum / (L.length : ℚ) := by
  have h := foldl_applyCat_avg_mul cfg cat L zeroStat
  have hz : zeroStat.judges_count = 0 := rfl
  have hza : zeroStat.avg_score = 0 := rfl
  rw [hz, hza] at h
  simp only [Nat.zero_add, zero_mul, zero_add] at h
  have hlen : (L.length : ℚ) ≠ 0 := by
    have : 0 < L.length := List.length_pos.mpr hL
    positivity
  rw [eq_div_iff hlen]
  exact h

theorem foldl_applyCat_total (cfg : Config) (cat : String)
    (L : List (List (String × Int))) (c : Stat) (hL : L ≠ []) :
    (L.foldl (fun cur cs => applyCat cfg cat cs cur) c).total_possible =
      ((catMax cfg cat : ℕ) : ℚ) := by
  induction L generalizing c with
  | nil => exact absurd rfl hL
  | cons cs L ih =>
    rw [List.foldl_cons]
    rcases List.eq_nil_or_concat L with h | _
    · subst h
      rfl
    · cases L with
      | nil => rfl
      | cons cs2 L2 => exact ih _ (by simp)

/-! ### The percentage / zero-record invariant -/

/-- Invariant maintained for the entry of category `cat`: the percentage is
determined by the average and the configured category maximum, an entry with
`judges_count = 0` is still the zero record, and a touched entry carries the
configured maximum as `total_possible`. -/
def statInv (cfg : Config) (cat : String) (st : Stat) : Prop :=
  st.percentage =
      (if catMax cfg cat > 0 then st.avg_score / ((catMax cfg cat : ℕ) : ℚ) * 100
       else 0) ∧
    (st.judges_count = 0 → st = zeroStat) ∧
    (0 < st.judges_count → st.total_possible = ((catMax cfg cat : ℕ) : ℚ))

theorem statInv_zeroStat (cfg : Config) (cat : String) :
    statInv cfg cat zeroStat := by
  refine ⟨?_, fun _ => rfl, fun h => absurd h (by simp [zeroStat])⟩
  by_cases h : catMax cfg cat > 0
  · simp [zeroStat, h]
  · simp [zeroStat, h]

theorem statInv_applyCat (cfg : Config) (cat : String)
    (cs : List (String × Int)) (c : Stat) :
    statInv cfg cat (applyCat cfg cat cs c) := by
  refine ⟨rfl, ?_, fun _ => rfl⟩
  intro h0
  rw [applyCat_judges_count] at h0
  omega

theorem statInv_foldl (cfg : Config) (cat : String)
    (L : List (List (String × Int))) (c : Stat) (h : statInv cfg cat c) :
    statInv cfg cat (L.foldl (fun cur cs => applyCat cfg cat cs cur) c) := by
  induction L generalizing c with
  | nil => exact h
  | cons cs L ih => exact ih _ (statInv_applyCat cfg cat cs c)

/-- Every entry of the computed statistics satisfies the invariant
(membership in the configuration is recovered from the shape lemma, so no
hypothesis on `team`/`cat` is needed). -/
theorem statInv_calcFromSubs (cfg : Config) (subs : List Submission)
    (team cat : String) (stat : Stat)
    (h : lookupStat (calcFromSubs cfg subs) team cat = some stat) :
    statInv cfg cat stat := by
  obtain ⟨row, hrow, hstat⟩ :
      ∃ row, lookupA team (calcFromSubs cfg subs) = some row ∧
        lookupA cat row = some stat := by
    unfold lookupStat at h
    cases hr : lookupA team (calcFromSubs cfg subs) with
    | none => rw [hr] at h; simp at h
    | some row => rw [hr] at h; exact ⟨row, rfl, h⟩
  have hshape := stShape_calcFromSubs cfg subs
  have ht : team ∈ cfg.teams := by
    rw [← hshape.1]
    exact (lookupA_isSome_iff_mem_keys team _).mp (by rw [hrow]; rfl)
  have hc : cat ∈ catNames cfg := by
    have hrowmem : (team, row) ∈ calcFromSubs cfg subs :=
      mem_of_lookupA_eq_some hrow
    have := hshape.2 (team, row) hrowmem
    rw [← this]
    exact (lookupA_isSome_iff_mem_keys cat _).mp (by rw [hstat]; rfl)
  have hchar := lookupStat_calcFromSubs cfg subs ht hc
  rw [h] at hchar
  have : stat = (contribs team cat subs).foldl
      (fun cur cs => applyCat cfg cat cs cur) zeroStat :=
    (Option.some.injEq _ _).mp hchar
  rw [this]
  exact statInv_foldl cfg cat _ _ (statInv_zeroStat cfg cat)

/-! ### Contributions under reordering -/

theorem contribs_eq_flatMap (team cat : String) (subs : List Submission) :
    contribs team cat subs =
      (subs.filter (fun s => s.team == team)).flatMap
        (fun s => (s.scores.filter (fun e => e.1 == cat)).map (fun e => e.2)) := by
  induction subs with
  | nil => rfl
  | cons s rest ih =>
    by_cases h : s.team = team
    · simp [contribs, h, ih]
    · simp [contribs, h, ih]

theorem contribs_perm (team cat : String) {subs1 subs2 : List Submission}
    (h : subs1.Perm subs2) :
    (contribs team cat subs1).Perm (contribs team cat subs2) := by
  rw [contribs_eq_flatMap, contribs_eq_flatMap]
  exact (h.filter _).flatMap_right _

/-! ### Sample configuration and stores used by the witnesses -/

/-- Sample configuration: two teams, two judges, one category with a single
criterion worth 10 points. -/
def cfgA : Config :=
  ⟨["Alpha", "Beta"], ["J1", "J2"],
   [⟨"Tech", [⟨"crit", "d", 10⟩]⟩]⟩

/-- Judge J1 scores Alpha 6/10 on Tech. -/
def subJ1A : Submission := ⟨"J1", "Alpha", [("Tech", [("crit", 6)])], "", "t1"⟩

/-- Judge J2 scores Alpha 10/10 on Tech. -/
def subJ2A : Submission := ⟨"J2", "Alpha", [("Tech", [("crit", 10)])], "", "t2"⟩

/-- A store holding both sample submissions under their dict keys. -/
def storeA : ScoresData := ⟨[("J1_Alpha", subJ1A), ("J2_Alpha", subJ2A)]⟩

/-- Configuration whose only category has criteria summing to `max_score` 0. -/
def cfgZ : Config := ⟨["Alpha"], ["J1"], [⟨"Zed", [⟨"c0", "d", 0⟩]⟩]⟩

/-- A submission giving 5 points on the zero-maximum category. -/
def storeZ : ScoresData :=
  ⟨[("J1_Alpha", ⟨"J1", "Alpha", [("Zed", [("c0", 5)])], "", "t1"⟩)]⟩

/-! ### The claims -/

/-- C1: for every configured team/category pair whose submissions contribute
at least one category score, the `avg_score` computed by
`calculate_all_team_scores` through the incremental-mean update equals the
sum of the contributed category scores divided by their number, and the
value is the same for every reordering of the submissions. -/
theorem claim_C1_incremental_mean (cfg : Config) (store : ScoresData)
    (team cat : String) (ht : team ∈ cfg.teams) (hc : cat ∈ catNames cfg)
    (hn : contribs team cat (store.scores.map (fun p => p.2)) ≠ []) :
    ∃ stat,
      lookupStat (calculate_all_team_scores cfg store) team cat = some stat ∧
      stat.avg_score =
        ((contribs team cat (store.scores.map (fun p => p.2))).map catScoreSum).sum /
          ((contribs team cat (store.scores.map (fun p => p.2))).length : ℚ) ∧
      ∀ store2 : ScoresData,
        (store.scores.map (fun p => p.2)).Perm (store2.scores.map (fun p => p.2)) →
        ∃ stat2,
          lookupStat (calculate_all_team_scores cfg store2) team cat = some stat2 ∧
          stat2.avg_score = stat.avg_score := by
  refine ⟨_, lookupStat_calcFromSubs cfg _ ht hc, ?_, ?_⟩
  · exact foldl_applyCat_avg cfg cat _ hn
  · intro store2 hperm
    have hp := contribs_perm team cat hperm
    refine ⟨_, lookupStat_calcFromSubs cfg _ ht hc, ?_⟩
    have hn2 : contribs team cat (store2.scores.map (fun p => p.2)) ≠ [] := by
      intro h0
      apply hn
      have := hp.length_eq
      rw [h0] at this
      exact List.length_eq_zero.mp this
    rw [foldl_applyCat_avg cfg cat _ hn2, foldl_applyCat_avg cfg cat _ hn]
    rw [(hp.map catScoreSum).sum_eq, hp.length_eq]

/-- C1 witness: the two sample submissions for Alpha/Tech (scores 6 and 10)
instantiate the theorem; the claimed average is `(6+10)/2 = 8`. -/
theorem claim_C1_witness :
    ∃ stat,
      lookupStat (calculate_all_team_scores cfgA storeA) "Alpha" "Tech" = some stat ∧
      stat.avg_score =
        ((contribs "Alpha" "Tech" (storeA.scores.map (fun p => p.2))).map catScoreSum).sum /
          ((contribs "Alpha" "Tech" (storeA.scores.map (fun p => p.2))).length : ℚ) ∧
      ∀ store2 : ScoresData,
        (storeA.scores.map (fun p => p.2)).Perm (store2.scores.map (fun p => p.2)) →
        ∃ stat2,
          lookupStat (calculate_all_team_scores cfgA store2) "Alpha" "Tech" = some stat2 ∧
          stat2.avg_score = stat.avg_score :=
  claim_C1_incremental_mean cfgA storeA "Alpha" "Tech"
    (by decide) (by decide) (by decide)

/-- C2: for every score store the mapping returned by
`calculate_all_team_scores` has an entry for every configured team and,
under it, every configured category; the initial structure (before any
submission is processed) holds the all-zero record at every such pair, and
the empty store returns exactly that initial structure. -/
theorem claim_C2_full_initialization (cfg : Config) (store : ScoresData)
    (team cat : String) (ht : team ∈ cfg.teams) (hc : cat ∈ catNames cfg) :
    (∃ stat,
      lookupStat (calculate_all_team_scores cfg store) team cat = some stat) ∧
    lookupStat (initStats cfg) team cat = some zeroStat ∧
    calculate_all_team_scores cfg ⟨[]⟩ = initStats cfg :=
  ⟨⟨_, lookupStat_calcFromSubs cfg _ ht hc⟩,
   lookupStat_initStats cfg ht hc, rfl⟩

/-- C2 witness: team Beta and category Tech of the sample configuration. -/
theorem claim_C2_witness :
    (∃ stat,
      lookupStat (calculate_all_team_scores cfgA storeA) "Beta" "Tech" = some stat) ∧
    lookupStat (initStats cfgA) "Beta" "Tech" = some zeroStat ∧
    calculate_all_team_scores cfgA ⟨[]⟩ = initStats cfgA :=
  claim_C2_full_initialization cfgA storeA "Beta" "Tech" (by decide) (by decide)

/-- C7: the percentage stored for any team/category entry is
`avg_score / category_max * 100` when the configured category maximum is
positive, and 0 when the criteria max of the category sum to 0 — the
division is guarded, no undefined value arises. -/
theorem claim_C7_zero_max_guard (cfg : Config) (store : ScoresData)
    (team cat : String) (stat : Stat)
    (h : lookupStat (calculate_all_team_scores cfg store) team cat = some stat) :
    (catMax cfg cat = 0 → stat.percentage = 0) ∧
    (0 < catMax cfg cat →
      stat.percentage = stat.avg_score / ((catMax cfg cat : ℕ) : ℚ) * 100) := by
  have hinv := statInv_calcFromSubs cfg _ team cat stat h
  constructor
  · intro h0
    rw [hinv.1, h0]
    simp
  · intro hpos
    rw [hinv.1, if_pos hpos]

/-- C7 witness: the zero-maximum category `Zed` scored 5 points still
reports percentage 0 (entry `⟨5, 0, 0, 1⟩`). -/
theorem claim_C7_witness :
    (catMax cfgZ "Zed" = 0 → Stat.percentage ⟨5, 0, 0, 1⟩ = 0) ∧
    (0 < catMax cfgZ "Zed" →
      Stat.percentage ⟨5, 0, 0, 1⟩ =
        Stat.avg_score ⟨5, 0, 0, 1⟩ / ((catMax cfgZ "Zed" : ℕ) : ℚ) * 100) :=
  claim_C7_zero_max_guard cfgZ storeZ "Alpha" "Zed" ⟨5, 0, 0, 1⟩ (by
    simp [storeZ, cfgZ, calculate_all_team_scores, calcFromSubs,
      processSubmission, processCat, applyCat, catScoreSum, catMax, catNames,
      initStats, lookupStat, lookupA, hasKey, updateA, zeroStat])

/-- C8: a submission whose team is not among the configured teams is skipped
entirely by `calculate_all_team_scores`: removing it from the iteration
leaves the computed statistics unchanged (and no error can arise — the
function is total). -/
theorem claim_C8_unknown_team_skipped (cfg : Config) (store : ScoresData)
    (s : Submission) (subs1 subs2 : List Submission)
    (hteam : s.team ∉ cfg.teams)
    (hsplit : store.scores.map (fun p => p.2) = subs1 ++ s :: subs2) :
    calculate_all_team_scores cfg store = calcFromSubs cfg (subs1 ++ subs2) := by
  unfold calculate_all_team_scores
  rw [hsplit]
  unfold calcFromSubs
  rw [List.foldl_append, List.foldl_append, List.foldl_cons]
  have hshape : stShape cfg (subs1.foldl (processSubmission cfg) (initStats cfg)) :=
    stShape_calcFromSubs cfg subs1
  have hskip : processSubmission cfg
      (subs1.foldl (processSubmission cfg) (initStats cfg)) s =
      subs1.foldl (processSubmission cfg) (initStats cfg) := by
    unfold processSubmission
    rw [if_neg]
    intro hk
    exact hteam (hshape.1 ▸ (hasKey_iff_mem_keys _ _).mp hk)
  rw [hskip]

/-- C8 witness: a submission for the unconfigured team "Gamma" between the
two sample submissions changes nothing. -/
theorem claim_C8_witness :
    calculate_all_team_scores cfgA
        ⟨[("J1_Alpha", subJ1A),
          ("J1_Gamma", ⟨"J1", "Gamma", [("Tech", [("crit", 9)])], "", "t3"⟩),
          ("J2_Alpha", subJ2A)]⟩ =
      calcFromSubs cfgA [subJ1A, subJ2A] :=
  claim_C8_unknown_team_skipped cfgA
    ⟨[("J1_Alpha", subJ1A),
      ("J1_Gamma", ⟨"J1", "Gamma", [("Tech", [("crit", 9)])], "", "t3"⟩),
      ("J2_Alpha", subJ2A)]⟩
    ⟨"J1", "Gamma", [("Tech", [("crit", 9)])], "", "t3"⟩
    [subJ1A] [subJ2A] (by decide) (by decide)

/-- C10: an entry of the computed statistics with `judges_count = 0` still
holds `avg_score = 0`, `total_possible = 0` and `percentage = 0`; as soon as
one submission has touched the pair, `total_possible` is the configured
category maximum. -/
theorem claim_C10_untouched_entry_zero (cfg : Config) (store : ScoresData)
    (team cat : String) (stat : Stat)
    (h : lookupStat (calculate_all_team_scores cfg store) team cat = some stat) :
    (stat.judges_count = 0 →
      stat.avg_score = 0 ∧ stat.total_possible = 0 ∧ stat.percentage = 0) ∧
    (0 < stat.judges_count →
      stat.total_possible = ((catMax cfg cat : ℕ) : ℚ)) := by
  have hinv := statInv_calcFromSubs cfg _ team cat stat h
  refine ⟨fun h0 => ?_, hinv.2.2⟩
  rw [hinv.2.1 h0]
  exact ⟨rfl, rfl, rfl⟩

/-- C10 witness: team Beta has no submissions, so its Tech entry is the zero
record. -/
theorem claim_C10_witness :
    (zeroStat.judges_count = 0 →
      zeroStat.avg_score = 0 ∧ zeroStat.total_possible = 0 ∧
        zeroStat.percentage = 0) ∧
    (0 < zeroStat.judges_count →
      zeroStat.total_possible = ((catMax cfgA "Tech" : ℕ) : ℚ)) :=
  claim_C10_untouched_entry_zero cfgA storeA "Beta" "Tech" zeroStat (by decide)

/-! ### The submission key (C3) -/

theorem updateA_updateA_self {β : Type} (k : String) (f g : β → β)
    (l : List (String × β)) :
    updateA k f (updateA k g l) = updateA k (fun v => f (g v)) l := by
  induction l with
  | nil => rfl
  | cons p rest ih =>
    by_cases h : p.1 = k
    · simp [updateA, h]
    · simp [updateA, h, ih]

theorem updateA_append_not_mem {β : Type} (k : String) (f : β → β) (v : β)
    (l : List (String × β)) (h : k ∉ l.map Prod.fst) :
    updateA k f (l ++ [(k, v)]) = l ++ [(k, f v)] := by
  induction l with
  | nil => simp [updateA]
  | cons p rest ih =>
    simp only [List.map_cons, List.mem_cons] at h
    push_neg at h
    have hp : ¬ p.1 = k := fun he => h.1 he.symm
    simp [updateA, hp, ih h.2]

/-- Python dict assignment is last-writer-wins: assigning the same key twice
leaves exactly the second value. -/
theorem dictInsert_dictInsert_self {β : Type} (k : String) (v1 v2 : β)
    (l : List (String × β)) :
    dictInsert k v2 (dictInsert k v1 l) = dictInsert k v2 l := by
  unfold dictInsert
  by_cases h : hasKey k l = true
  · have h2 : hasKey k (updateA k (fun _ => v1) l) = true := by
      rw [hasKey_updateA]; exact h
    rw [if_pos h, if_pos h2, if_pos h, updateA_updateA_self]
  · have hmem : k ∉ l.map Prod.fst := fun hm =>
      h ((hasKey_iff_mem_keys k l).mpr hm)
    have h2 : hasKey k (l ++ [(k, v1)]) = true := by
      rw [hasKey_iff_mem_keys]; simp
    rw [if_neg h, if_pos h2, if_neg h, updateA_append_not_mem k _ v1 l hmem]

theorem append_underscore_inj (a : List Char) (b : List Char)
    (c : List Char) (d : List Char) (ha : '_' ∉ a) (hc : '_' ∉ c)
    (h : a ++ '_' :: b = c ++ '_' :: d) : a = c ∧ b = d := by
  induction a generalizing c with
  | nil =>
    cases c with
    | nil => simpa using h
    | cons ch c2 =>
      simp only [List.nil_append, List.cons_append, List.cons.injEq] at h
      exact absurd (h.1 ▸ List.mem_cons_self ch c2) (h.1 ▸ hc)
  | cons ch a2 ih =>
    cases c with
    | nil =>
      simp only [List.nil_append, List.cons_append, List.cons.injEq] at h
      exact absurd (h.1 ▸ List.mem_cons_self ch a2) (h.1 ▸ ha)
    | cons ch2 c2 =>
      simp only [List.cons_append, List.cons.injEq] at h
      obtain ⟨rfl, h2⟩ := h
      have hrec := ih c2 (fun hm => ha (List.mem_cons_of_mem _ hm))
        (fun hm => hc (List.mem_cons_of_mem _ hm)) h2
      exact ⟨by rw [hrec.1], hrec.2⟩

/-- C3 counterexample: the key `f"{judge}_{team}"` is not injective on
(judge, team) pairs — judge "a_b" with team "c" and judge "a" with team
"b_c" collide on the key "a_b_c". -/
theorem claim_C3_counterexample :
    judge_key "a_b" "c" = judge_key "a" "b_c" ∧
      ¬ ("a_b" = "a" ∧ "c" = "b_c") := by decide

/-- C3 (amended): provided judge names contain no underscore, distinct
(judge, team) pairs produce distinct keys; saving twice for the same judge
and team replaces the stored submission (last-writer-wins); consequently,
starting from an empty store, two saves by one judge for one team leave
`judges_count = 1` for a scored category, holding the second submission's
values. -/
theorem claim_C3_amended :
    (∀ j1 t1 j2 t2 : String, '_' ∉ j1.data → '_' ∉ j2.data →
      judge_key j1 t1 = judge_key j2 t2 → j1 = j2 ∧ t1 = t2) ∧
    (∀ (store : ScoresData) (judge team : String)
        (s1 s2 : List (String × List (String × Int))) (n1 n2 ts1 ts2 : String),
      save_submission (save_submission store judge team s1 n1 ts1)
          judge team s2 n2 ts2 =
        save_submission store judge team s2 n2 ts2) ∧
    (∀ (cfg : Config) (judge team cat : String)
        (s1 s2 : List (String × List (String × Int))) (n1 n2 ts1 ts2 : String)
        (cs : List (String × Int)),
      team ∈ cfg.teams → cat ∈ catNames cfg →
      s2.filter (fun e => e.1 == cat) = [(cat, cs)] →
      ∃ stat,
        lookupStat (calculate_all_team_scores cfg
            (save_submission (save_submission ⟨[]⟩ judge team s1 n1 ts1)
              judge team s2 n2 ts2)) team cat = some stat ∧
        stat.judges_count = 1 ∧ stat.avg_score = catScoreSum cs) := by
  refine ⟨?_, ?_, ?_⟩
  · intro j1 t1 j2 t2 h1 h2 h
    unfold judge_key at h
    have hdata : j1.data ++ '_' :: t1.data = j2.data ++ '_' :: t2.data := by
      have hd := congrArg String.data h
      simpa [String.data_append] using hd
    have hres := append_underscore_inj j1.data t1.data j2.data t2.data h1 h2 hdata
    exact ⟨String.ext hres.1, String.ext hres.2⟩
  · intro store judge team s1 s2 n1 n2 ts1 ts2
    simp only [save_submission]
    rw [dictInsert_dictInsert_self]
  · intro cfg judge team cat s1 s2 n1 n2 ts1 ts2 cs ht hc hfilter
    have hstore : (save_submission (save_submission ⟨[]⟩ judge team s1 n1 ts1)
        judge team s2 n2 ts2).scores =
        [(judge_key judge team,
          ⟨judge, team, s2, n2, ts2⟩)] := by
      show dictInsert _ _ (dictInsert _ _ []) = _
      rw [dictInsert_dictInsert_self]
      rfl
    have hcontribs :
        contribs team cat [(⟨judge, team, s2, n2, ts2⟩ : Submission)] = [cs] := by
      simp [contribs, hfilter]
    have hcalc : calculate_all_team_scores cfg
        (save_submission (save_submission ⟨[]⟩ judge team s1 n1 ts1)
          judge team s2 n2 ts2) =
        calcFromSubs cfg [⟨judge, team, s2, n2, ts2⟩] := by
      unfold calculate_all_team_scores
      rw [hstore]
      rfl
    rw [hcalc, lookupStat_calcFromSubs cfg _ ht hc, hcontribs]
    refine ⟨applyCat cfg cat cs zeroStat, rfl, rfl, ?_⟩
    rw [applyCat_avg]
    simp [zeroStat]

/-- C3 witness: concrete double save for judge J1 / team Alpha on the
sample configuration, second submission scoring 10. -/
theorem claim_C3_witness :
    ∃ stat,
      lookupStat (calculate_all_team_scores cfgA
          (save_submission (save_submission ⟨[]⟩ "J1" "Alpha"
              [("Tech", [("crit", 6)])] "" "t1")
            "J1" "Alpha" [("Tech", [("crit", 10)])] "" "t2"))
        "Alpha" "Tech" = some stat ∧
      stat.judges_count = 1 ∧ stat.avg_score = catScoreSum [("crit", 10)] :=
  claim_C3_amended.2.2 cfgA "J1" "Alpha" "Tech"
    [("Tech", [("crit", 6)])] [("Tech", [("crit", 10)])] "" "" "t1" "t2"
    [("crit", 10)] (by decide) (by decide) (by decide)

/-! ### The stable descending sort -/

theorem insertDescBy_perm {α : Type} (key : α → ℚ) (x : α) (l : List α) :
    (insertDescBy key x l).Perm (x :: l) := by
  induction l with
  | nil => exact List.Perm.refl _
  | cons y ys ih =>
    by_cases h : key y > key x
    · simp only [insertDescBy, if_pos h]
      exact (ih.cons y).trans (List.Perm.swap x y ys)
    · simp only [insertDescBy, if_neg h]
      exact List.Perm.refl _

theorem sortDescBy_perm {α : Type} (key : α → ℚ) (l : List α) :
    (sortDescBy key l).Perm l := by
  induction l with
  | nil => exact List.Perm.refl _
  | cons x l ih =>
    show (insertDescBy key x (sortDescBy key l)).Perm (x :: l)
    exact (insertDescBy_perm key x _).trans (ih.cons x)

theorem pairwise_insertDescBy {α : Type} (key : α → ℚ) (x : α) (l : List α)
    (h : l.Pairwise (fun a b => key b ≤ key a)) :
    (insertDescBy key x l).Pairwise (fun a b => key b ≤ key a) := by
  induction l with
  | nil => simp [insertDescBy]
  | cons y ys ih =>
    rcases List.pairwise_cons.mp h with ⟨hy, hys⟩
    by_cases hxy : key y > key x
    · simp only [insertDescBy, if_pos hxy]
      refine List.pairwise_cons.mpr ⟨?_, ih hys⟩
      intro z hz
      rcases List.mem_cons.mp ((insertDescBy_perm key x ys).mem_iff.mp hz) with
        rfl | hz2
      · exact le_of_lt hxy
      · exact hy z hz2
    · simp only [insertDescBy, if_neg hxy]
      have hyx : key y ≤ key x := le_of_not_lt hxy
      refine List.pairwise_cons.mpr ⟨?_, h⟩
      intro z hz
      rcases List.mem_cons.mp hz with rfl | hz2
      · exact hyx
      · exact le_trans (hy z hz2) hyx

theorem pairwise_sortDescBy {α : Type} (key : α → ℚ) (l : List α) :
    (sortDescBy key l).Pairwise (fun a b => key b ≤ key a) := by
  induction l with
  | nil => exact List.Pairwise.nil
  | cons x l ih =>
    show (insertDescBy key x (sortDescBy key l)).Pairwise _
    exact pairwise_insertDescBy key x _ ih

/-- Stability of the insertion: the elements carrying any fixed key value
appear in the same order before and after inserting. -/
theorem filter_insertDescBy {α : Type} (key : α → ℚ) (x : α) (l : List α)
    (p : ℚ) :
    (insertDescBy key x l).filter (fun y => decide (key y = p)) =
      if key x = p then x :: l.filter (fun y => decide (key y = p))
      else l.filter (fun y => decide (key y = p)) := by
  induction l with
  | nil =>
    by_cases h : key x = p
    · simp [insertDescBy, h]
    · simp [insertDescBy, h]
  | cons y ys ih =>
    by_cases hxy : key y > key x
    · simp only [insertDescBy, if_pos hxy]
      by_cases h : key x = p
      · have hy : ¬ (key y = p) := by rw [← h]; exact ne_of_gt hxy
        simp [List.filter_cons, hy, ih, h]
      · simp [List.filter_cons, ih, h]
    · simp only [insertDescBy, if_neg hxy]
      by_cases h : key x = p
      · simp [List.filter_cons, h]
      · simp [List.filter_cons, h]

/-- Stability of the sort: filtering to any fixed key value commutes with
sorting, so ties keep their original relative order. -/
theorem filter_sortDescBy {α : Type} (key : α → ℚ) (l : List α) (p : ℚ) :
    (sortDescBy key l).filter (fun y => decide (key y = p)) =
      l.filter (fun y => decide (key y = p)) := by
  induction l with
  | nil => rfl
  | cons x l ih =>
    show (insertDescBy key x (sortDescBy key l)).filter _ = _
    rw [filter_insertDescBy]
    by_cases h : key x = p
    · rw [if_pos h, ih]
      simp [List.filter_cons, h]
    · rw [if_neg h, ih]
      simp [List.filter_cons, h]

/-! ### Category rankings -/

theorem lookupA_map_fn {β : Type} (k : String) (names : List String)
    (g : String → β) :
    lookupA k (names.map (fun n => (n, g n))) =
      if k ∈ names then some (g k) else none := by
  induction names with
  | nil => rfl
  | cons n rest ih =>
    by_cases h : n = k
    · subst h
      simp [lookupA]
    · have hk : ¬ k = n := fun hkk => h hkk.symm
      simp [lookupA, h, ih, hk]

theorem lookupA_get_category_winners (cfg : Config) (ts : TeamStats)
    {cat : String} (hc : cat ∈ catNames cfg) :
    lookupA cat (get_category_winners cfg ts) =
      some (sortDescBy (fun x => x.2) (categoryResults cat ts)) := by
  unfold get_category_winners
  rw [lookupA_map_fn, if_pos hc]

theorem mem_categoryResults {cat : String} {ts : TeamStats} {team : String}
    {p : ℚ} (hnd : (ts.map Prod.fst).Nodup) :
    (team, p) ∈ categoryResults cat ts ↔
      ∃ stat, lookupStat ts team cat = some stat ∧
        0 < stat.judges_count ∧ p = stat.percentage := by
  unfold categoryResults
  rw [List.mem_filterMap]
  constructor
  · rintro ⟨entry, hmem, hf⟩
    cases hstat : lookupA cat entry.2 with
    | none => rw [hstat] at hf; simp at hf
    | some stat =>
      rw [hstat] at hf
      have hf2 : (if stat.judges_count > 0 then
          some (entry.1, stat.percentage) else none) = some (team, p) := hf
      by_cases hj : stat.judges_count > 0
      · rw [if_pos hj] at hf2
        have h1 : entry.1 = team :=
          congrArg Prod.fst (Option.some.injEq _ _ |>.mp hf2)
        have h2 : stat.percentage = p :=
          congrArg Prod.snd (Option.some.injEq _ _ |>.mp hf2)
        refine ⟨stat, ?_, hj, h2.symm⟩
        unfold lookupStat
        have hl : lookupA team ts = some entry.2 := by
          rw [← h1]
          exact lookupA_eq_some_of_mem hnd (Prod.mk.eta ▸ hmem)
        rw [hl]
        exact hstat
      · rw [if_neg hj] at hf2
        simp at hf2
  · rintro ⟨stat, hls, hj, rfl⟩
    obtain ⟨row, hrow, hstat⟩ :
        ∃ row, lookupA team ts = some row ∧ lookupA cat row = some stat := by
      unfold lookupStat at hls
      cases hr : lookupA team ts with
      | none => rw [hr] at hls; simp at hls
      | some row => rw [hr] at hls; exact ⟨row, rfl, hls⟩
    refine ⟨(team, row), mem_of_lookupA_eq_some hrow, ?_⟩
    show (match lookupA cat row with
      | some stat =>
        if stat.judges_count > 0 then some (team, stat.percentage) else none
      | none => none) = some (team, stat.percentage)
    rw [hstat]
    exact if_pos hj

/-- C4: for each configured category the ranking contains exactly the teams
whose entry has `judges_count > 0` (paired with their percentage), sorted
descending by percentage; a team with `judges_count = 0` never appears, and
with no qualifying team the ranking is the empty list, not an error. -/
theorem claim_C4_category_ranking (cfg : Config) (store : ScoresData)
    (cat : String) (hc : cat ∈ catNames cfg) (hnd : cfg.teams.Nodup) :
    ∃ ranking,
      lookupA cat (get_category_winners cfg
        (calculate_all_team_scores cfg store)) = some ranking ∧
      (∀ team p, (team, p) ∈ ranking ↔
        ∃ stat,
          lookupStat (calculate_all_team_scores cfg store) team cat = some stat ∧
          0 < stat.judges_count ∧ p = stat.percentage) ∧
      ranking.Pairwise (fun a b => b.2 ≤ a.2) ∧
      ((∀ team stat,
          lookupStat (calculate_all_team_scores cfg store) team cat = some stat →
          stat.judges_count = 0) → ranking = []) := by
  have hndk : ((calculate_all_team_scores cfg store).map Prod.fst).Nodup := by
    have h := (stShape_calcFromSubs cfg (store.scores.map (fun p => p.2))).1
    unfold calculate_all_team_scores
    rw [h]
    exact hnd
  have hperm := sortDescBy_perm (fun x : String × ℚ => x.2)
    (categoryResults cat (calculate_all_team_scores cfg store))
  refine ⟨_, lookupA_get_category_winners cfg _ hc, ?_, ?_, ?_⟩
  · intro team p
    rw [hperm.mem_iff]
    exact mem_categoryResults hndk
  · exact pairwise_sortDescBy _ _
  · intro hall
    rw [List.eq_nil_iff_forall_not_mem]
    intro x hx
    have hx2 : (x.1, x.2) ∈ sortDescBy (fun x : String × ℚ => x.2)
        (categoryResults cat (calculate_all_team_scores cfg store)) := by
      rw [Prod.mk.eta]
      exact hx
    rw [hperm.mem_iff] at hx2
    obtain ⟨stat, hls, hj, _⟩ := (mem_categoryResults hndk).mp hx2
    rw [hall x.1 stat hls] at hj
    exact lt_irrefl 0 hj

/-- C4 witness: the Tech ranking of the sample store (only Alpha judged). -/
theorem claim_C4_witness :
    ∃ ranking,
      lookupA "Tech" (get_category_winners cfgA
        (calculate_all_team_scores cfgA storeA)) = some ranking ∧
      (∀ team p, (team, p) ∈ ranking ↔
        ∃ stat,
          lookupStat (calculate_all_team_scores cfgA storeA) team "Tech" = some stat ∧
          0 < stat.judges_count ∧ p = stat.percentage) ∧
      ranking.Pairwise (fun a b => b.2 ≤ a.2) ∧
      ((∀ team stat,
          lookupStat (calculate_all_team_scores cfgA storeA) team "Tech" = some stat →
          stat.judges_count = 0) → ranking = []) :=
  claim_C4_category_ranking cfgA storeA "Tech" (by decide) (by decide)

/-! ### Stability of the ranking under ties (C5) -/

theorem pairs_sublist_of_keys {β : Type} {ts : List (String × β)}
    {t1 t2 : String} {r1 r2 : β}
    (hnd : (ts.map Prod.fst).Nodup)
    (hsub : List.Sublist [t1, t2] (ts.map Prod.fst))
    (h1 : lookupA t1 ts = some r1) (h2 : lookupA t2 ts = some r2) :
    List.Sublist [(t1, r1), (t2, r2)] ts := by
  induction ts generalizing t1 r1 with
  | nil => simp [lookupA] at h1
  | cons q rest ih =>
    obtain ⟨qk, qv⟩ := q
    rw [List.map_cons] at hsub hnd
    rw [List.nodup_cons] at hnd
    cases hsub with
    | cons _ htl =>
      have ht1mem : t1 ∈ rest.map Prod.fst := htl.subset (by simp)
      have ht2mem : t2 ∈ rest.map Prod.fst := htl.subset (by simp)
      have hne1 : ¬ qk = t1 := fun he => hnd.1 (he ▸ ht1mem)
      have hne2 : ¬ qk = t2 := fun he => hnd.1 (he ▸ ht2mem)
      simp only [lookupA] at h1 h2
      rw [if_neg hne1] at h1
      rw [if_neg hne2] at h2
      exact (ih hnd.2 htl h1 h2).cons (qk, qv)
    | cons₂ _ htl =>
      have ht2mem : t2 ∈ rest.map Prod.fst := htl.subset (by simp)
      have hne2 : ¬ qk = t2 := fun he => hnd.1 (he ▸ ht2mem)
      simp only [lookupA] at h1 h2
      rw [if_pos trivial] at h1
      rw [if_neg hne2] at h2
      have hr1 : qv = r1 := (Option.some.injEq _ _).mp h1
      subst hr1
      exact List.Sublist.cons₂ (qk, qv)
        (List.singleton_sublist.mpr (mem_of_lookupA_eq_some h2))

/-- C5: the category sort is stable and the candidates are collected in the
order of the configured team list, so two tied teams appear in the ranking
in the relative order of their positions in `config["teams"]`. -/
theorem claim_C5_stable_ties (cfg : Config) (store : ScoresData)
    (cat t1 t2 : String) (p : ℚ) (s1 s2 : Stat)
    (hc : cat ∈ catNames cfg) (hnd : cfg.teams.Nodup)
    (hsub : List.Sublist [t1, t2] cfg.teams)
    (h1 : lookupStat (calculate_all_team_scores cfg store) t1 cat = some s1)
    (h2 : lookupStat (calculate_all_team_scores cfg store) t2 cat = some s2)
    (hj1 : 0 < s1.judges_count) (hj2 : 0 < s2.judges_count)
    (hp1 : s1.percentage = p) (hp2 : s2.percentage = p) :
    ∃ ranking,
      lookupA cat (get_category_winners cfg
        (calculate_all_team_scores cfg store)) = some ranking ∧
      List.Sublist [(t1, p), (t2, p)] ranking := by
  refine ⟨_, lookupA_get_category_winners cfg _ hc, ?_⟩
  obtain ⟨row1, hrow1, hstat1⟩ :
      ∃ row, lookupA t1 (calculate_all_team_scores cfg store) = some row ∧
        lookupA cat row = some s1 := by
    unfold lookupStat at h1
    cases hr : lookupA t1 (calculate_all_team_scores cfg store) with
    | none => rw [hr] at h1; simp at h1
    | some row => rw [hr] at h1; exact ⟨row, rfl, h1⟩
  obtain ⟨row2, hrow2, hstat2⟩ :
      ∃ row, lookupA t2 (calculate_all_team_scores cfg store) = some row ∧
        lookupA cat row = some s2 := by
    unfold lookupStat at h2
    cases hr : lookupA t2 (calculate_all_team_scores cfg store) with
    | none => rw [hr] at h2; simp at h2
    | some row => rw [hr] at h2; exact ⟨row, rfl, h2⟩
  have hkeys : (calculate_all_team_scores cfg store).map Prod.fst = cfg.teams := by
    unfold calculate_all_team_scores
    exact (stShape_calcFromSubs cfg _).1
  have hndk : ((calculate_all_team_scores cfg store).map Prod.fst).Nodup := by
    rw [hkeys]; exact hnd
  have hsubpairs : List.Sublist [(t1, row1), (t2, row2)]
      (calculate_all_team_scores cfg store) :=
    pairs_sublist_of_keys hndk (by rw [hkeys]; exact hsub) hrow1 hrow2
  have hcand : List.Sublist [(t1, p), (t2, p)]
      (categoryResults cat (calculate_all_team_scores cfg store)) := by
    unfold categoryResults
    have hf := hsubpairs.filterMap (fun entry =>
      match lookupA cat entry.2 with
      | some stat =>
        if stat.judges_count > 0 then some (entry.1, stat.percentage) else none
      | none => none)
    have hcomp : List.filterMap (fun entry =>
        match lookupA cat entry.2 with
        | some stat =>
          if stat.judges_count > 0 then some (entry.1, stat.percentage) else none
        | none => none) [(t1, row1), (t2, row2)] = [(t1, p), (t2, p)] := by
      simp [List.filterMap_cons, hstat1, hstat2, hj1, hj2, hp1, hp2]
    rw [hcomp] at hf
    exact hf
  have hfilterself : ([(t1, p), (t2, p)] : List (String × ℚ)).filter
      (fun y => decide (y.2 = p)) = [(t1, p), (t2, p)] := by
    simp
  have hstep := hcand.filter (fun y => decide (y.2 = p))
  rw [hfilterself] at hstep
  rw [← filter_sortDescBy (fun x : String × ℚ => x.2)
    (categoryResults cat (calculate_all_team_scores cfg store)) p] at hstep
  exact hstep.trans (List.filter_sublist _)

/-- Store for the tie witness: J1 scores Alpha 8/10 and J2 scores Beta 8/10
on Tech, so both teams sit at 80%. -/
def storeT : ScoresData :=
  ⟨[("J1_Alpha", ⟨"J1", "Alpha", [("Tech", [("crit", 8)])], "", "t1"⟩),
    ("J2_Beta", ⟨"J2", "Beta", [("Tech", [("crit", 8)])], "", "t2"⟩)]⟩

/-- C5 witness: Alpha and Beta tie at 80% and keep configuration order in
the Tech ranking. -/
theorem claim_C5_witness :
    ∃ ranking,
      lookupA "Tech" (get_category_winners cfgA
        (calculate_all_team_scores cfgA storeT)) = some ranking ∧
      List.Sublist [("Alpha", (80 : ℚ)), ("Beta", (80 : ℚ))] ranking :=
  claim_C5_stable_ties cfgA storeT "Tech" "Alpha" "Beta" 80
    ⟨8, 10, 80, 1⟩ ⟨8, 10, 80, 1⟩
    (by decide) (by decide) (List.Sublist.refl _)
    (by norm_num [storeT, cfgA, calculate_all_team_scores, calcFromSubs,
      processSubmission, processCat, applyCat, catScoreSum, catMax, catNames,
      initStats, lookupStat, lookupA, hasKey, updateA, zeroStat])
    (by norm_num [storeT, cfgA, calculate_all_team_scores, calcFromSubs,
      processSubmission, processCat, applyCat, catScoreSum, catMax, catNames,
      initStats, lookupStat, lookupA, hasKey, updateA, zeroStat])
    (by decide) (by decide) (by decide) (by decide)

/-! ### Overall standings (C6) -/

theorem mem_overall_filterMap {ts : TeamStats} {team : String} {sc : ℚ}
    {k : ℕ} (hnd : (ts.map Prod.fst).Nodup) :
    ((team, sc, k) ∈ ts.filterMap (fun entry =>
      let judged := entry.2.filter (fun p => p.2.judges_count > 0)
      if judged.length > 0 then
        some (entry.1,
          ((judged.map (fun p => p.2.percentage)).sum) / (judged.length : ℚ),
          judged.length)
      else none)) ↔
    ∃ row, lookupA team ts = some row ∧
      0 < (row.filter (fun p => p.2.judges_count > 0)).length ∧
      k = (row.filter (fun p => p.2.judges_count > 0)).length ∧
      sc = ((row.filter (fun p => p.2.judges_count > 0)).map
        (fun p => p.2.percentage)).sum /
        ((row.filter (fun p => p.2.judges_count > 0)).length : ℚ) := by
  rw [List.mem_filterMap]
  constructor
  · rintro ⟨entry, hmem, hg⟩
    have hg2 : (if (entry.2.filter (fun p => p.2.judges_count > 0)).length > 0 then
        some (entry.1,
          (((entry.2.filter (fun p => p.2.judges_count > 0)).map
            (fun p => p.2.percentage)).sum) /
            ((entry.2.filter (fun p => p.2.judges_count > 0)).length : ℚ),
          (entry.2.filter (fun p => p.2.judges_count > 0)).length)
      else none) = some (team, sc, k) := hg
    by_cases hlen : (entry.2.filter (fun p => p.2.judges_count > 0)).length > 0
    · rw [if_pos hlen] at hg2
      have hinj := (Option.some.injEq _ _).mp hg2
      have h1 : entry.1 = team := congrArg Prod.fst hinj
      have h2 : sc = ((entry.2.filter (fun p => p.2.judges_count > 0)).map
          (fun p => p.2.percentage)).sum /
          ((entry.2.filter (fun p => p.2.judges_count > 0)).length : ℚ) :=
        (congrArg (fun x => x.2.1) hinj).symm
      have h3 : k = (entry.2.filter (fun p => p.2.judges_count > 0)).length :=
        (congrArg (fun x => x.2.2) hinj).symm
      refine ⟨entry.2, ?_, hlen, h3, h2⟩
      rw [← h1]
      exact lookupA_eq_some_of_mem hnd (Prod.mk.eta ▸ hmem)
    · rw [if_neg hlen] at hg2
      simp at hg2
  · rintro ⟨row, hrow, hlen, hk, hsc⟩
    refine ⟨(team, row), mem_of_lookupA_eq_some hrow, ?_⟩
    show (if (row.filter (fun p => p.2.judges_count > 0)).length > 0 then
        some (team,
          (((row.filter (fun p => p.2.judges_count > 0)).map
            (fun p => p.2.percentage)).sum) /
            ((row.filter (fun p => p.2.judges_count > 0)).length : ℚ),
          (row.filter (fun p => p.2.judges_count > 0)).length)
      else none) = some (team, sc, k)
    rw [if_pos hlen, hk, hsc]

/-- C6: the overall standings list exactly the teams with at least one
category having `judges_count > 0`; each carries the mean of its percentages
over those categories and their count; the list is sorted descending by that
mean; a team with zero judged categories never appears. -/
theorem claim_C6_overall_standings (cfg : Config) (store : ScoresData)
    (hnd : cfg.teams.Nodup) :
    (∀ team sc k,
      (team, sc, k) ∈ overall_scores (calculate_all_team_scores cfg store) ↔
      ∃ row, lookupA team (calculate_all_team_scores cfg store) = some row ∧
        0 < (row.filter (fun p => p.2.judges_count > 0)).length ∧
        k = (row.filter (fun p => p.2.judges_count > 0)).length ∧
        sc = ((row.filter (fun p => p.2.judges_count > 0)).map
          (fun p => p.2.percentage)).sum /
          ((row.filter (fun p => p.2.judges_count > 0)).length : ℚ)) ∧
    (overall_scores (calculate_all_team_scores cfg store)).Pairwise
      (fun a b => b.2.1 ≤ a.2.1) ∧
    (∀ team row,
      lookupA team (calculate_all_team_scores cfg store) = some row →
      row.filter (fun p => p.2.judges_count > 0) = [] →
      ∀ sc k, (team, sc, k) ∉
        overall_scores (calculate_all_team_scores cfg store)) := by
  have hndk : ((calculate_all_team_scores cfg store).map Prod.fst).Nodup := by
    have h : (calculate_all_team_scores cfg store).map Prod.fst = cfg.teams := by
      unfold calculate_all_team_scores
      exact (stShape_calcFromSubs cfg _).1
    rw [h]
    exact hnd
  have hmem : ∀ team sc k,
      (team, sc, k) ∈ overall_scores (calculate_all_team_scores cfg store) ↔
      ∃ row, lookupA team (calculate_all_team_scores cfg store) = some row ∧
        0 < (row.filter (fun p => p.2.judges_count > 0)).length ∧
        k = (row.filter (fun p => p.2.judges_count > 0)).length ∧
        sc = ((row.filter (fun p => p.2.judges_count > 0)).map
          (fun p => p.2.percentage)).sum /
          ((row.filter (fun p => p.2.judges_count > 0)).length : ℚ) := by
    intro team sc k
    unfold overall_scores
    rw [(sortDescBy_perm (fun x : String × ℚ × ℕ => x.2.1) _).mem_iff]
    exact mem_overall_filterMap hndk
  refine ⟨hmem, ?_, ?_⟩
  · exact pairwise_sortDescBy _ _
  · intro team row hrow hempty sc k hin
    obtain ⟨row2, hrow2, hlen, _, _⟩ := (hmem team sc k).mp hin
    rw [hrow] at hrow2
    have : row2 = row := ((Option.some.injEq _ _).mp hrow2).symm
    rw [this, hempty] at hlen
    simp at hlen

/-- C6 witness: with only Alpha judged, the overall standings are accessible
through the characterisation at the sample store. -/
theorem claim_C6_witness :
    (∀ team sc k,
      (team, sc, k) ∈ overall_scores (calculate_all_team_scores cfgA storeA) ↔
      ∃ row, lookupA team (calculate_all_team_scores cfgA storeA) = some row ∧
        0 < (row.filter (fun p => p.2.judges_count > 0)).length ∧
        k = (row.filter (fun p => p.2.judges_count > 0)).length ∧
        sc = ((row.filter (fun p => p.2.judges_count > 0)).map
          (fun p => p.2.percentage)).sum /
          ((row.filter (fun p => p.2.judges_count > 0)).length : ℚ)) ∧
    (overall_scores (calculate_all_team_scores cfgA storeA)).Pairwise
      (fun a b => b.2.1 ≤ a.2.1) ∧
    (∀ team row,
      lookupA team (calculate_all_team_scores cfgA storeA) = some row →
      row.filter (fun p => p.2.judges_count > 0) = [] →
      ∀ sc k, (team, sc, k) ∉
        overall_scores (calculate_all_team_scores cfgA storeA)) :=
  claim_C6_overall_standings cfgA storeA (by decide)

/-! ### Submission sums versus configuration maxima (C9) -/

theorem contribs_append (team cat : String) (a b : List Submission) :
    contribs team cat (a ++ b) = contribs team cat a ++ contribs team cat b := by
  induction a with
  | nil => rfl
  | cons s rest ih => simp [contribs, ih, List.append_assoc]

/-- C9: when one more submission for `team` carrying category `cat` is
processed, the score folded into the average is the sum of ALL its submitted
criterion values for that category — no criterion name is checked against
the configuration — while `total_possible` becomes the sum of `max_score`
over the category's configured criteria, never a value derived from the
submission. -/
theorem claim_C9_score_sum_and_config_max (cfg : Config)
    (subs : List Submission) (s : Submission) (team cat : String)
    (cs : List (String × Int)) (prev : Stat)
    (ht : team ∈ cfg.teams) (hc : cat ∈ catNames cfg)
    (hteam : s.team = team)
    (hcat : s.scores.filter (fun e => e.1 == cat) = [(cat, cs)])
    (hprev : lookupStat (calcFromSubs cfg subs) team cat = some prev) :
    ∃ stat, lookupStat (calcFromSubs cfg (subs ++ [s])) team cat = some stat ∧
      stat.judges_count = prev.judges_count + 1 ∧
      stat.avg_score =
        (prev.avg_score * (prev.judges_count : ℚ) +
          (((cs.map (fun p => p.2)).sum : ℤ) : ℚ)) /
          ((prev.judges_count : ℚ) + 1) ∧
      stat.total_possible =
        (((((cfg.categories.filter (fun c => c.name == cat)).map
          (fun c => (c.criteria.map
            (fun criterion => criterion.max_score)).sum)).sum) : ℕ) : ℚ) := by
  have hchar := lookupStat_calcFromSubs cfg subs ht hc
  rw [hprev] at hchar
  have hprev_eq : prev = (contribs team cat subs).foldl
      (fun cur cs => applyCat cfg cat cs cur) zeroStat :=
    (Option.some.injEq _ _).mp hchar
  have happ : contribs team cat (subs ++ [s]) = contribs team cat subs ++ [cs] := by
    rw [contribs_append]
    congr 1
    simp [contribs, hteam, hcat]
  refine ⟨_, lookupStat_calcFromSubs cfg (subs ++ [s]) ht hc, ?_, ?_, ?_⟩
  · rw [happ, List.foldl_append]
    simp only [List.foldl_cons, List.foldl_nil]
    rw [applyCat_judges_count, hprev_eq]
  · rw [happ, List.foldl_append]
    simp only [List.foldl_cons, List.foldl_nil]
    rw [applyCat_avg, ← hprev_eq]
    rfl
  · rw [happ, List.foldl_append]
    simp only [List.foldl_cons, List.foldl_nil]
    rfl

/-- C9 witness: the second submission scores Tech with criteria
`crit = 4` and the unconfigured name `mystery = 6`; both are summed (score
10), while `total_possible` stays the configured 10. -/
theorem claim_C9_witness :
    ∃ stat, lookupStat (calcFromSubs cfgA
        [subJ1A, ⟨"J2", "Alpha",
          [("Tech", [("crit", 4), ("mystery", 6)])], "", "t2"⟩])
        "Alpha" "Tech" = some stat ∧
      stat.judges_count = Stat.judges_count ⟨6, 10, 60, 1⟩ + 1 ∧
      stat.avg_score =
        (Stat.avg_score ⟨6, 10, 60, 1⟩ *
            (Stat.judges_count ⟨6, 10, 60, 1⟩ : ℚ) +
          ((([(("crit" : String), (4 : ℤ)), ("mystery", 6)].map
            (fun p => p.2)).sum : ℤ) : ℚ)) /
          ((Stat.judges_count ⟨6, 10, 60, 1⟩ : ℚ) + 1) ∧
      stat.total_possible =
        (((((cfgA.categories.filter (fun c => c.name == "Tech")).map
          (fun c => (c.criteria.map
            (fun criterion => criterion.max_score)).sum)).sum) : ℕ) : ℚ) :=
  claim_C9_score_sum_and_config_max cfgA [subJ1A]
    ⟨"J2", "Alpha", [("Tech", [("crit", 4), ("mystery", 6)])], "", "t2"⟩
    "Alpha" "Tech" [("crit", 4), ("mystery", 6)] ⟨6, 10, 60, 1⟩
    (by decide) (by decide) (by decide) (by decide)
    (by norm_num [subJ1A, cfgA, calcFromSubs, processSubmission, processCat,
      applyCat, catScoreSum, catMax, catNames, initStats, lookupStat, lookupA,
      hasKey, updateA, zeroStat])

end JudgeApp
